import Mathlib

/-!
Shallow embedding of `src/pgn_time_score.py` (a PGN move-time report
generator) and proofs about it.

Modelling conventions:
* Python floats are embedded as exact rationals (`ℚ`); the float literals
  `0.9`, `1.1`, `0.8`, `1.2` of the source appear as the rationals they denote.
* Python `int(s)` and `float(s)` raise `ValueError` on unparsable input; they
  are embedded as `Option`-returning parsers (`none` models the raised error).
  The embedding covers signed decimal forms (with optional fraction and
  exponent for `float`); locale forms such as `inf`, `nan`, underscores and
  surrounding whitespace do not occur in clock tokens (the regex captures a
  maximal run of non-whitespace characters) and are out of scope.
* A Python division is embedded as `pydiv`, which is `none` on a zero
  divisor (modelling `ZeroDivisionError`), except where the source guards the
  division syntactically with a conditional expression.
* `math.sqrt` is an external library function; `compute_stats` takes it as an
  abstract function argument `sqrt : ℚ → ℚ`.
* The chess library (`python-chess`) is an external collaborator: a mainline
  ply is embedded as the data the extraction loop reads from it, namely the
  side to move before the ply (from `board.turn`), the rendered move string
  (from `board.san`), and the result of the clock regex search on the comment
  (`none` when no `[%clk ...]` marker matched, `some tok` for the captured
  token).
* Python `f"{x:.1f}"` formatting is an interpreter service; string-producing
  functions take an abstract formatter `fmt : ℚ → String` where the source
  formats a float.
-/

/-! ## Modelling Python string splitting, `int()` and `float()` -/

/-- Split of a character list at every occurrence of `sep`, keeping empty
pieces, as Python `str.split(sep)` does; the result is always nonempty. -/
def pySplitChar (sep : Char) : List Char → List (List Char)
  | [] => [[]]
  | c :: rest =>
    match pySplitChar sep rest with
    | g :: gs => if c = sep then [] :: g :: gs else (c :: g) :: gs
    | [] => [[]]

/-- Model of Python `s.split(sep)` for a one-character separator (the source
only splits on `":"`). -/
def pySplit (sep : Char) (s : String) : List String :=
  (pySplitChar sep s.data).map fun l => String.mk l

/-- Digit values of a maximal leading run of decimal digits, with the rest of
the characters. -/
def takeDigits : List Char → List ℕ × List Char
  | [] => ([], [])
  | c :: rest =>
    if c.isDigit then
      let (ds, r) := takeDigits rest
      ((c.toNat - 48) :: ds, r)
    else ([], c :: rest)

/-- Value of a digit-value list read left to right in base 10. -/
def natOfDigits (ds : List ℕ) : ℕ := ds.foldl (fun a d => a * 10 + d) 0

/-- Model of Python `int(s)` on a whitespace-free token: an optional sign
followed by one or more decimal digits; `none` models the `ValueError` raised
on any other input. -/
def parsePyInt (s : String) : Option ℤ :=
  let core : List Char → Option ℕ := fun l =>
    match takeDigits l with
    | (ds, rest) => if ds.isEmpty ∨ ¬ rest.isEmpty then none else some (natOfDigits ds)
  match s.data with
  | '+' :: rest => (core rest).map fun n => (n : ℤ)
  | '-' :: rest => (core rest).map fun n => -(n : ℤ)
  | l => (core l).map fun n => (n : ℤ)

/-- Mantissa of a Python float literal: `digits`, `digits.`, `.digits` or
`digits.digits`; returns its exact rational value and the unread rest. -/
def parseMantissa (l : List Char) : Option (ℚ × List Char) :=
  let (ds, r) := takeDigits l
  match r with
  | '.' :: r2 =>
    let (fs, r3) := takeDigits r2
    if ds.isEmpty ∧ fs.isEmpty then none
    else some ((natOfDigits ds : ℚ) + (natOfDigits fs : ℚ) / (10 : ℚ) ^ fs.length, r3)
  | _ => if ds.isEmpty then none else some ((natOfDigits ds : ℚ), r)

/-- Model of Python `float(s)` on a whitespace-free token: optional sign,
mantissa, optional exponent part; `none` models the `ValueError` raised on any
other input. The value is exact (`ℚ`), so fractional seconds are preserved. -/
def parsePyFloat (s : String) : Option ℚ :=
  let (sign, l) : ℚ × List Char :=
    match s.data with
    | '+' :: r => (1, r)
    | '-' :: r => (-1, r)
    | l => (1, l)
  match parseMantissa l with
  | none => none
  | some (m, rest) =>
    match rest with
    | [] => some (sign * m)
    | 'e' :: r | 'E' :: r =>
      let (esign, r1) : ℤ × List Char :=
        match r with
        | '+' :: rr => (1, rr)
        | '-' :: rr => (-1, rr)
        | rr => (1, rr)
      let (eds, r2) := takeDigits r1
      if eds.isEmpty ∨ ¬ r2.isEmpty then none
      else some (sign * m * (10 : ℚ) ^ (esign * (natOfDigits eds : ℤ)))
    | _ => none

/-! ## `parse_time_str` (source lines 14-30) -/

/-- Embedding of `parse_time_str`: split on `:`; three fields are parsed as
`int`, `int`, `float` and combined as `hours*3600 + minutes*60 + seconds`; two
fields as `int`, `float` combined as `minutes*60 + seconds`; otherwise the
whole string is passed to `float` (so four or more fields fail, like
`float("1:2:3:4")` in Python). `none` models the uncaught `ValueError`. -/
def parse_time_str (time_str : String) : Option ℚ :=
  match pySplit ':' time_str with
  | [p0, p1, p2] =>
    match parsePyInt p0, parsePyInt p1, parsePyFloat p2 with
    | some hours, some minutes, some seconds =>
      some (((hours * 3600 + minutes * 60 : ℤ) : ℚ) + seconds)
    | _, _, _ => none
  | [p0, p1] =>
    match parsePyInt p0, parsePyFloat p1 with
    | some minutes, some seconds => some (((minutes * 60 : ℤ) : ℚ) + seconds)
    | _, _ => none
  | _ => parsePyFloat time_str

/-! ## Data model of the extraction loop (`process_game`, source lines 33-102) -/

/-- Side to move, as computed on source line 63 from `board.turn`; the
extraction loop only ever produces the strings "W" and "B". -/
inductive Side where
  | W : Side
  | B : Side
deriving DecidableEq, Repr

/-- Embedding of the per-move dict built on source line 76:
`{"side": ..., "move": ..., "time_used": ...}`. -/
structure MoveRecord where
  side : Side
  move : String
  time_used : ℚ
deriving DecidableEq, Repr

/-- Data the extraction loop reads from one mainline ply through the external
chess library: the side to move before the ply (`board.turn`), the move
rendered in algebraic form (`board.san`), and the token captured by the clock
regex search on the comment of source line 56 (`none` when no `[%clk ...]`
marker matched). -/
structure Ply where
  side : Side
  san : String
  clock : Option String
deriving DecidableEq, Repr

/-- Mutable state of the extraction loop: the previous known clock reading of
each side (source lines 49-50), both seeded with `initial_time`. -/
structure ExtState where
  white_prev : ℚ
  black_prev : ℚ
deriving DecidableEq, Repr

/-- Body of the extraction loop (source lines 53-79) for one ply. When a
marker is present its token goes through `parse_time_str`; a parse failure is
the uncaught `ValueError` of Python `int`/`float` (the source has no handler
around the call on line 59), embedded as `none` for the whole step. With a
parsed reading the ply uses and updates its side's previous clock; without a
marker `time_used` is `0.0` and the state is untouched. -/
def processStep (st : ExtState) (p : Ply) : Option (ExtState × MoveRecord) :=
  match p.clock with
  | none => some (st, { side := p.side, move := p.san, time_used := 0 })
  | some tok =>
    match parse_time_str tok with
    | none => none
    | some clock_seconds =>
      match p.side with
      | Side.W =>
        some ({ st with white_prev := clock_seconds },
              { side := Side.W, move := p.san, time_used := st.white_prev - clock_seconds })
      | Side.B =>
        some ({ st with black_prev := clock_seconds },
              { side := Side.B, move := p.san, time_used := st.black_prev - clock_seconds })

/-- Whole extraction walk over the mainline plies (the `while node.variations`
loop, source lines 53-79), threading the clock state and collecting the
`moves_info` records in play order. `none` models the uncaught `ValueError`
aborting `process_game`. -/
def processMoves (st : ExtState) : List Ply → Option (ExtState × List MoveRecord)
  | [] => some (st, [])
  | p :: rest =>
    match processStep st p with
    | none => none
    | some (st1, r) =>
      match processMoves st1 rest with
      | none => none
      | some (st2, rs) => some (st2, r :: rs)

/-- Extraction of a whole game: both previous-clock scalars start at the
starting allotment `initial_time` (source lines 49-50). -/
def process_game (initial_time : ℚ) (plies : List Ply) :
    Option (ExtState × List MoveRecord) :=
  processMoves { white_prev := initial_time, black_prev := initial_time } plies

/-- Sum of the `time_used` fields of a record list (the Python
`sum(m["time_used"] for m in moves)`). -/
def sumTimes (moves : List MoveRecord) : ℚ := (moves.map MoveRecord.time_used).sum

/-- Previous-known-clock scalar of one side inside the extraction state. -/
def sidePrev : Side → ExtState → ℚ
  | Side.W, st => st.white_prev
  | Side.B, st => st.black_prev

/-- Records of one side, in order: the stable filter of source lines 302-303
(`[m for m in moves_info if m["side"] == "W"]` and likewise for Black). -/
def sideRecords (s : Side) (recs : List MoveRecord) : List MoveRecord :=
  recs.filter fun m => m.side = s

/-- Parsed clock readings of the plies of side `s` that carry a parsable
marker, in play order. Its last element is the final clock reading observed
for that side. -/
def sideReadings (s : Side) (plies : List Ply) : List ℚ :=
  plies.filterMap fun p =>
    if p.side = s then p.clock.bind parse_time_str else none

/-- Combined move line of the display list (source lines 94-99): the move
number and the White and Black records grouped under it. -/
structure OutLine where
  number : ℕ
  white : Option MoveRecord
  black : Option MoveRecord
deriving DecidableEq, Repr

/-- Records a combined line renders, White entry first. -/
def lineRecords (l : OutLine) : List MoveRecord := l.white.toList ++ l.black.toList

/-- Embedding of the combined move-list loop (source lines 82-100): starting
from move number `mn`, take a White record and, when the next record is Black,
pair it on the same line; a Black record at the front of the list gets a line
of its own. Every iteration of the Python `while` consumes one or two records,
which is the structural recursion here. -/
def combineMoves : ℕ → List MoveRecord → List OutLine
  | _, [] => []
  | mn, [r] =>
    match r.side with
    | Side.W => [{ number := mn, white := some r, black := none }]
    | Side.B => [{ number := mn, white := none, black := some r }]
  | mn, r :: r2 :: rest =>
    match r.side with
    | Side.W =>
      match r2.side with
      | Side.B => { number := mn, white := some r, black := some r2 } :: combineMoves (mn + 1) rest
      | Side.W => { number := mn, white := some r, black := none } :: combineMoves (mn + 1) (r2 :: rest)
    | Side.B => { number := mn, white := none, black := some r } :: combineMoves (mn + 1) (r2 :: rest)

/-! ## Statistics engine (`compute_stats`, source lines 105-150) -/

/-- Result dict of `compute_stats`. -/
structure Stats where
  count : ℕ
  total_time : ℚ
  avg_time : ℚ
  std_dev : ℚ
  consistency : ℚ
  recommended_avg : ℚ
  efficiency_ratio : ℚ
deriving DecidableEq, Repr

/-- Python division: `ZeroDivisionError` on a zero divisor, embedded as
`none`; used wherever the source divides without a syntactic guard. -/
def pydiv (a b : ℚ) : Option ℚ := if b = 0 then none else some (a / b)

/-- Embedding of `compute_stats`. An empty list returns the all-zero dict of
source lines 120-128 without any division. Otherwise every unguarded division
of the source is a `pydiv` (their divisor `count` is nonzero here), the two
conditional-expression divisions keep their `!= 0` guards, and `math.sqrt` is
the abstract external function `sqrt`. -/
def compute_stats (sqrt : ℚ → ℚ) (moves : List MoveRecord) (initial_time : ℚ) :
    Option Stats :=
  if moves.isEmpty then
    some { count := 0, total_time := 0, avg_time := 0, std_dev := 0,
           consistency := 0, recommended_avg := 0, efficiency_ratio := 0 }
  else
    let count : ℕ := moves.length
    let total_time := sumTimes moves
    match pydiv total_time (count : ℚ) with
    | none => none
    | some avg_time =>
      match pydiv ((moves.map fun m => (m.time_used - avg_time) ^ 2).sum) (count : ℚ) with
      | none => none
      | some variance =>
        let std_dev := sqrt variance
        match (if avg_time ≠ 0 then (pydiv std_dev avg_time).map (· * 100) else some (0 : ℚ)) with
        | none => none
        | some consistency =>
          let recommended_avg := initial_time / 40
          match (if recommended_avg ≠ 0 then (pydiv avg_time recommended_avg).map (· * 100)
                 else some (0 : ℚ)) with
          | none => none
          | some efficiency_ratio =>
            some { count := count, total_time := total_time, avg_time := avg_time,
                   std_dev := std_dev, consistency := consistency,
                   recommended_avg := recommended_avg, efficiency_ratio := efficiency_ratio }

/-! ## Segment analysis (`analyze_segments`, source lines 153-189) -/

/-- Embedding of `analyze_segments`. Fewer than two records return the two
fixed insufficient-data strings; otherwise the list splits at
`len(moves) // 2`, each half's mean is an unguarded Python division
(`pydiv`), and the comments are assembled exactly as on source lines 170-187,
with the interpreter float formatting `f"{x:.1f}"` abstracted as `fmt`. -/
def analyze_segments (fmt : ℚ → String) (moves : List MoveRecord)
    (recommended_avg : ℚ) : Option (String × String) :=
  if moves.length < 2 then
    some ("Insufficient data for early game analysis.",
          "Insufficient data for later game analysis.")
  else
    let half := moves.length / 2
    let first_half := moves.take half
    let second_half := moves.drop half
    match pydiv (sumTimes first_half) (first_half.length : ℚ) with
    | none => none
    | some avg_first =>
      match pydiv (sumTimes second_half) (second_half.length : ℚ) with
      | none => none
      | some avg_second =>
        let early_comment := "Early game average: " ++ fmt avg_first ++ " s/move." ++
          (if avg_first < recommended_avg * (9 / 10) then
            " Moves were notably faster than recommended."
          else if recommended_avg * (11 / 10) < avg_first then
            " Moves were notably slower than recommended."
          else " Early game move times were near optimal.")
        let later_comment := "Later game average: " ++ fmt avg_second ++ " s/move." ++
          (if avg_second < avg_first * (9 / 10) then
            " Moves became significantly faster in the later game."
          else if avg_first * (11 / 10) < avg_second then
            " Moves became significantly slower in the later game."
          else " Later game move times remained consistent with the early game.")
        some (early_comment, later_comment)

/-! ## Detailed per-move table (`detailed_move_stats_table`, source lines 204-258) -/

/-- Remark of one table row (source lines 240-250): the deviation from the
recommended average is the guarded conditional expression of lines 240-244,
and the strict thresholds `< -20` and `> 20` pick fast, slow or optimal. -/
def remarkOf (time_used recommended_avg : ℚ) : String :=
  let rec_delta :=
    if recommended_avg ≠ 0 then (time_used - recommended_avg) / recommended_avg * 100 else 0
  if rec_delta < -20 then "fast"
  else if 20 < rec_delta then "slow"
  else "optimal"

/-- Computed columns of one row of the detailed table (source lines 253-256),
kept as their exact values rather than as the rendered string. -/
structure Row where
  no : ℕ
  move : String
  time_used : ℚ
  cum : ℚ
  remain : ℚ
  avg_so_far : ℚ
  delta : ℚ
  remark : String
deriving DecidableEq, Repr

/-- Body of the table loop (source lines 230-257): `i` is the 1-based
position from `enumerate(moves, start=1)` and `cum` the running total. The
running average `cum / i` is an unguarded Python division (`pydiv`); the
deviation from the overall average keeps its `!= 0` conditional guard from
lines 235-239. -/
def tableRowsAux (overall_avg recommended_avg initial_time : ℚ) :
    ℕ → ℚ → List MoveRecord → Option (List Row)
  | _, _, [] => some []
  | i, cum0, m :: rest =>
    let cum := cum0 + m.time_used
    match pydiv cum (i : ℚ) with
    | none => none
    | some avg_so_far =>
      let remain := initial_time - cum
      let delta :=
        if overall_avg ≠ 0 then (m.time_used - overall_avg) / overall_avg * 100 else 0
      match tableRowsAux overall_avg recommended_avg initial_time (i + 1) cum rest with
      | none => none
      | some rows =>
        some ({ no := i, move := m.move, time_used := m.time_used, cum := cum,
                remain := remain, avg_so_far := avg_so_far, delta := delta,
                remark := remarkOf m.time_used recommended_avg } :: rows)

/-- Embedding of `detailed_move_stats_table` restricted to its computed row
data (the header and string padding of the source are display only). -/
def detailed_move_stats_table (moves : List MoveRecord)
    (overall_avg recommended_avg initial_time : ℚ) : Option (List Row) :=
  tableRowsAux overall_avg recommended_avg initial_time 1 0 moves

/-- Demonstration game of the specification: four plies, all with clock
markers, `TimeControl` 1800. -/
def demoPlies : List Ply :=
  [{ side := Side.W, san := "e4", clock := some "1780" },
   { side := Side.B, san := "e5", clock := some "1775" },
   { side := Side.W, san := "Nf3", clock := some "1760" },
   { side := Side.B, san := "Nc6", clock := some "1750" }]

/-! ## Lemmas about the extraction loop -/
lemma processStep_sidePrev {st st1 : ExtState} {p : Ply} {r : MoveRecord} (s : Side)
    (h : processStep st p = some (st1, r)) :
    (if r.side = s then r.time_used else 0) = sidePrev s st - sidePrev s st1 := by
  cases hc : p.clock with
  | none =>
    simp only [processStep, hc] at h
    simp only [Option.some.injEq, Prod.mk.injEq] at h
    obtain ⟨rfl, rfl⟩ := h
    split <;> simp
  | some tok =>
    simp only [processStep, hc] at h
    cases hp : parse_time_str tok with
    | none => simp [hp] at h
    | some q =>
      simp only [hp] at h
      cases hs : p.side with
      | W =>
        simp only [hs, Option.some.injEq, Prod.mk.injEq] at h
        obtain ⟨rfl, rfl⟩ := h
        cases s <;> simp [sidePrev]
      | B =>
        simp only [hs, Option.some.injEq, Prod.mk.injEq] at h
        obtain ⟨rfl, rfl⟩ := h
        cases s <;> simp [sidePrev]

lemma processStep_sidePrev_update {st st1 : ExtState} {p : Ply} {r : MoveRecord} (s : Side)
    (h : processStep st p = some (st1, r)) :
    sidePrev s st1 = ((if p.side = s then p.clock.bind parse_time_str else none).getD
      (sidePrev s st)) := by
  cases hc : p.clock with
  | none =>
    simp only [processStep, hc] at h
    simp only [Option.some.injEq, Prod.mk.injEq] at h
    obtain ⟨rfl, rfl⟩ := h
    simp [hc]
  | some tok =>
    simp only [processStep, hc] at h
    cases hp : parse_time_str tok with
    | none => simp [hp] at h
    | some q =>
      simp only [hp] at h
      cases hs : p.side with
      | W =>
        simp only [hs, Option.some.injEq, Prod.mk.injEq] at h
        obtain ⟨rfl, rfl⟩ := h
        cases s <;> simp [sidePrev, hc, hs, hp]
      | B =>
        simp only [hs, Option.some.injEq, Prod.mk.injEq] at h
        obtain ⟨rfl, rfl⟩ := h
        cases s <;> simp [sidePrev, hc, hs, hp]

lemma sumTimes_cons (m : MoveRecord) (l : List MoveRecord) :
    sumTimes (m :: l) = m.time_used + sumTimes l := by
  simp [sumTimes]

lemma sideRecords_cons_pos {m : MoveRecord} {s : Side} (h : m.side = s)
    (l : List MoveRecord) : sideRecords s (m :: l) = m :: sideRecords s l := by
  simp [sideRecords, List.filter_cons, h]

lemma sideRecords_cons_neg {m : MoveRecord} {s : Side} (h : ¬ m.side = s)
    (l : List MoveRecord) : sideRecords s (m :: l) = sideRecords s l := by
  simp [sideRecords, List.filter_cons, h]

lemma processMoves_sideSum : ∀ (plies : List Ply) (st st' : ExtState)
    (recs : List MoveRecord) (s : Side),
    processMoves st plies = some (st', recs) →
    sumTimes (sideRecords s recs) = sidePrev s st - sidePrev s st' := by
  intro plies
  induction plies with
  | nil =>
    intro st st' recs s h
    simp only [processMoves, Option.some.injEq, Prod.mk.injEq] at h
    obtain ⟨rfl, rfl⟩ := h
    simp [sideRecords, sumTimes]
  | cons p rest ih =>
    intro st st' recs s h
    simp only [processMoves] at h
    cases hstep : processStep st p with
    | none => simp [hstep] at h
    | some pr =>
      obtain ⟨st1, r⟩ := pr
      rw [hstep] at h
      dsimp only at h
      cases hrest : processMoves st1 rest with
      | none => simp [hrest] at h
      | some pr2 =>
        obtain ⟨st2, rs⟩ := pr2
        rw [hrest] at h
        simp only [Option.some.injEq, Prod.mk.injEq] at h
        obtain ⟨rfl, rfl⟩ := h
        have hc := processStep_sidePrev s hstep
        have ihh := ih st1 st2 rs s hrest
        by_cases hside : r.side = s
        · rw [sideRecords_cons_pos hside, sumTimes_cons, ihh, if_pos hside] at *
          linarith
        · rw [sideRecords_cons_neg hside, ihh, if_neg hside] at *
          linarith

lemma processMoves_sidePrev_frame : ∀ (plies : List Ply) (st st' : ExtState)
    (recs : List MoveRecord) (s : Side),
    processMoves st plies = some (st', recs) → sideReadings s plies = [] →
    sidePrev s st' = sidePrev s st := by
  intro plies
  induction plies with
  | nil =>
    intro st st' recs s h _
    simp only [processMoves, Option.some.injEq, Prod.mk.injEq] at h
    obtain ⟨rfl, rfl⟩ := h
    rfl
  | cons p rest ih =>
    intro st st' recs s h hread
    simp only [processMoves] at h
    cases hstep : processStep st p with
    | none => simp [hstep] at h
    | some pr =>
      obtain ⟨st1, r⟩ := pr
      rw [hstep] at h
      dsimp only at h
      cases hrest : processMoves st1 rest with
      | none => simp [hrest] at h
      | some pr2 =>
        obtain ⟨st2, rs⟩ := pr2
        rw [hrest] at h
        simp only [Option.some.injEq, Prod.mk.injEq] at h
        obtain ⟨rfl, rfl⟩ := h
        simp only [sideReadings, List.filterMap_cons] at hread
        cases hcl : (if p.side = s then p.clock.bind parse_time_str else none) with
        | none =>
          rw [hcl] at hread
          have h1 := processStep_sidePrev_update s hstep
          rw [hcl] at h1
          simp only [Option.getD_none] at h1
          rw [ih st1 st2 rs s hrest hread, h1]
        | some q => rw [hcl] at hread; simp at hread

lemma processMoves_sidePrev_last : ∀ (plies : List Ply) (st st' : ExtState)
    (recs : List MoveRecord) (s : Side) (r : ℚ),
    processMoves st plies = some (st', recs) →
    (sideReadings s plies).getLast? = some r → sidePrev s st' = r := by
  intro plies
  induction plies with
  | nil => intro st st' recs s r h hlast; simp [sideReadings] at hlast
  | cons p rest ih =>
    intro st st' recs s r h hlast
    simp only [processMoves] at h
    cases hstep : processStep st p with
    | none => simp [hstep] at h
    | some pr =>
      obtain ⟨st1, rec⟩ := pr
      rw [hstep] at h
      dsimp only at h
      cases hrest : processMoves st1 rest with
      | none => simp [hrest] at h
      | some pr2 =>
        obtain ⟨st2, rs⟩ := pr2
        rw [hrest] at h
        simp only [Option.some.injEq, Prod.mk.injEq] at h
        obtain ⟨rfl, rfl⟩ := h
        simp only [sideReadings, List.filterMap_cons] at hlast
        cases hcl : (if p.side = s then p.clock.bind parse_time_str else none) with
        | none =>
          rw [hcl] at hlast
          exact ih st1 st2 rs s r hrest hlast
        | some q =>
          rw [hcl] at hlast
          dsimp only at hlast
          cases hrd : sideReadings s rest with
          | nil =>
            have hrd' := hrd
            simp only [sideReadings] at hrd'
            rw [hrd'] at hlast
            simp only [List.getLast?_singleton, Option.some.injEq] at hlast
            have h1 := processStep_sidePrev_update s hstep
            rw [hcl] at h1
            simp only [Option.getD_some] at h1
            rw [processMoves_sidePrev_frame rest st1 st2 rs s hrest hrd, h1, hlast]
          | cons x xs =>
            have hrd' := hrd
            simp only [sideReadings] at hrd'
            rw [hrd'] at hlast
            rw [List.getLast?_cons_cons] at hlast
            refine ih st1 st2 rs s r hrest ?_
            rw [hrd]
            exact hlast

/-- C2: time conservation. For a game whose extraction succeeds, if every ply
of a side carries a clock marker with a parsable time string, then the sum of
`time_used` over that side records equals `initial_time` minus the final
clock reading observed for that side, exactly, as a telescoping sum over the
embedded rational arithmetic. -/
theorem extraction_time_conservation :
    ∀ (initial_time : ℚ) (plies : List Ply) (st' : ExtState)
      (recs : List MoveRecord) (s : Side) (r : ℚ),
    process_game initial_time plies = some (st', recs) →
    (∀ p ∈ plies, p.side = s → (p.clock.bind parse_time_str).isSome) →
    (sideReadings s plies).getLast? = some r →
    sumTimes (sideRecords s recs) = initial_time - r := by
  intro it plies st' recs s r hrun _ hlast
  have h1 := processMoves_sideSum plies _ st' recs s hrun
  have h2 := processMoves_sidePrev_last plies _ st' recs s r hrun hlast
  rw [h1, h2]
  cases s <;> rfl

/-- Witness for C2 on the four-ply demonstration game of the specification. -/
theorem extraction_time_conservation_witness :
    sumTimes (sideRecords Side.W
      [{ side := Side.W, move := "e4", time_used := 1800 - 1780 },
       { side := Side.B, move := "e5", time_used := 1800 - 1775 },
       { side := Side.W, move := "Nf3", time_used := 1780 - 1760 },
       { side := Side.B, move := "Nc6", time_used := 1775 - 1750 }]) = 1800 - 1760 := by
  refine extraction_time_conservation 1800 demoPlies
    { white_prev := 1760, black_prev := 1750 } _ Side.W 1760 ?_ ?_ ?_
  · simp +decide [process_game, processMoves, processStep, parse_time_str, pySplit,
      pySplitChar, parsePyInt, parsePyFloat, parseMantissa, takeDigits, natOfDigits, demoPlies]
  · intro p hp hside
    fin_cases hp <;> simp +decide [parse_time_str, pySplit, pySplitChar, parsePyInt,
      parsePyFloat, parseMantissa, takeDigits, natOfDigits]
  · simp +decide [sideReadings, demoPlies, parse_time_str, pySplit, pySplitChar,
      parsePyInt, parsePyFloat, parseMantissa, takeDigits, natOfDigits]

/-- C5: missing-marker fallback. A ply whose annotation has no clock marker
yields a record with `time_used = 0` and leaves the extraction state (both
previous-known clocks) unchanged; any run of markerless plies preserves the
state and emits zero-time records; and a subsequent ply of either side that
does carry a parsable reading computes `time_used` relative to that side
previous-known clock, which is the last successfully observed value
(initially the starting allotment). -/
theorem missing_marker_fallback :
    (∀ (st : ExtState) (p : Ply), p.clock = none →
      processStep st p = some (st, { side := p.side, move := p.san, time_used := 0 })) ∧
    (∀ (st st' : ExtState) (plies : List Ply) (recs : List MoveRecord),
      (∀ p ∈ plies, p.clock = none) → processMoves st plies = some (st', recs) →
      st' = st ∧ recs = plies.map fun p => { side := p.side, move := p.san, time_used := 0 }) ∧
    (∀ (st : ExtState) (p : Ply) (tok : String) (q : ℚ),
      p.side = Side.W → p.clock = some tok → parse_time_str tok = some q →
      processStep st p = some ({ st with white_prev := q },
        { side := Side.W, move := p.san, time_used := st.white_prev - q })) ∧
    (∀ (st : ExtState) (p : Ply) (tok : String) (q : ℚ),
      p.side = Side.B → p.clock = some tok → parse_time_str tok = some q →
      processStep st p = some ({ st with black_prev := q },
        { side := Side.B, move := p.san, time_used := st.black_prev - q })) := by
  refine ⟨?_, ?_, ?_, ?_⟩
  · intro st p hc; simp [processStep, hc]
  · intro st st' plies
    induction plies generalizing st with
    | nil =>
      intro recs _ h
      simp only [processMoves, Option.some.injEq, Prod.mk.injEq] at h
      obtain ⟨rfl, rfl⟩ := h
      simp
    | cons p rest ih =>
      intro recs hall h
      have hc : p.clock = none := hall p (List.mem_cons_self p rest)
      simp only [processMoves, processStep, hc] at h
      cases hrest : processMoves st rest with
      | none => rw [hrest] at h; cases h
      | some pr2 =>
        obtain ⟨st2, rs⟩ := pr2
        rw [hrest] at h
        simp only [Option.some.injEq, Prod.mk.injEq] at h
        obtain ⟨rfl, rfl⟩ := h
        have := ih st rs (fun q hq => hall q (List.mem_cons_of_mem p hq)) hrest
        simp [this.1, this.2]
  · intro st p tok q hs hc hp; simp [processStep, hc, hp, hs]
  · intro st p tok q hs hc hp; simp [processStep, hc, hp, hs]

/-- Witness for C5: a markerless White ply, then a White ply with reading
1650 charged against the last observed clock 1800. -/
theorem missing_marker_fallback_witness :
    processStep { white_prev := 1800, black_prev := 1800 }
        { side := Side.W, san := "e4", clock := none } =
      some ({ white_prev := 1800, black_prev := 1800 },
            { side := Side.W, move := "e4", time_used := 0 }) ∧
    processStep { white_prev := 1800, black_prev := 1700 }
        { side := Side.W, san := "Nf3", clock := some "1650" } =
      some ({ white_prev := 1650, black_prev := 1700 },
            { side := Side.W, move := "Nf3", time_used := 1800 - 1650 }) := by
  constructor
  · exact missing_marker_fallback.1 _ _ rfl
  · exact missing_marker_fallback.2.2.1 _ _ "1650" 1650 rfl rfl
      (by simp +decide [parse_time_str, pySplit, pySplitChar, parsePyInt, parsePyFloat,
        parseMantissa, takeDigits, natOfDigits])

/-- C1 counterexample: a ply whose clock marker token is malformed is NOT
treated like a ply with no clock marker. On the token "abc" (regex-captured
from the comment `[%clk abc]`) the parse fails, and extraction aborts with
the uncaught error (`none`), whereas the same ply without a marker produces a
record with `time_used = 0` and an unchanged state. -/
theorem malformed_marker_counterexample :
    parse_time_str "abc" = none ∧
    processMoves { white_prev := 1800, black_prev := 1800 }
        [{ side := Side.W, san := "e4", clock := some "abc" }] = none ∧
    processMoves { white_prev := 1800, black_prev := 1800 }
        [{ side := Side.W, san := "e4", clock := none }] =
      some ({ white_prev := 1800, black_prev := 1800 },
            [{ side := Side.W, move := "e4", time_used := 0 }]) := by
  refine ⟨?_, ?_, ?_⟩ <;>
    simp +decide [processMoves, processStep, parse_time_str, pySplit, pySplitChar,
      parsePyFloat, parseMantissa, takeDigits]

/-- C1 (amended): a clock marker whose time string is malformed (a field not
parsable as an integer for hours/minutes or a float for seconds) is not
tolerated: the `ValueError` raised inside `parse_time_str` propagates out of
the extraction loop (the source has no handler), so extraction of the whole
game aborts; the malformed ply is not given `time_used = 0`. Only a ply with
no marker at all falls back to `time_used = 0`. -/
theorem malformed_marker_aborts :
    ∀ (plies : List Ply) (st : ExtState) (p : Ply) (tok : String),
    p ∈ plies → p.clock = some tok → parse_time_str tok = none →
    processMoves st plies = none := by
  intro plies
  induction plies with
  | nil => intro st p tok hmem; cases hmem
  | cons q rest ih =>
    intro st p tok hmem hc hp
    rcases List.mem_cons.mp hmem with rfl | hmem'
    · simp [processMoves, processStep, hc, hp]
    · simp only [processMoves]
      cases hstep : processStep st q with
      | none => rfl
      | some pr =>
        obtain ⟨st1, r⟩ := pr
        have hrw := ih st1 p tok hmem' hc hp
        simp [hrw]

/-- Witness for the amended C1 on a concrete malformed token. -/
theorem malformed_marker_aborts_witness :
    processMoves { white_prev := 1800, black_prev := 1800 }
      [{ side := Side.B, san := "c5", clock := some "0:xx:3" }] = none := by
  refine malformed_marker_aborts _ _
    { side := Side.B, san := "c5", clock := some "0:xx:3" } "0:xx:3"
    (List.mem_singleton.mpr rfl) rfl ?_
  simp +decide [parse_time_str, pySplit, pySplitChar, parsePyInt, parsePyFloat,
    parseMantissa, takeDigits]

lemma compute_stats_nonempty (sqrt : ℚ → ℚ) (moves : List MoveRecord)
    (initial_time : ℚ) (h : moves ≠ []) :
    compute_stats sqrt moves initial_time = some {
      count := moves.length,
      total_time := sumTimes moves,
      avg_time := sumTimes moves / (moves.length : ℚ),
      std_dev := sqrt ((moves.map fun m =>
        (m.time_used - sumTimes moves / (moves.length : ℚ)) ^ 2).sum / (moves.length : ℚ)),
      consistency := if sumTimes moves / (moves.length : ℚ) ≠ 0 then
          sqrt ((moves.map fun m =>
            (m.time_used - sumTimes moves / (moves.length : ℚ)) ^ 2).sum / (moves.length : ℚ)) /
            (sumTimes moves / (moves.length : ℚ)) * 100
        else 0,
      recommended_avg := initial_time / 40,
      efficiency_ratio := if initial_time / 40 ≠ 0 then
          (sumTimes moves / (moves.length : ℚ)) / (initial_time / 40) * 100
        else 0 } := by
  have hlen : ((moves.length : ℚ)) ≠ 0 := by
    have hx : moves.length ≠ 0 := fun hl => h (List.length_eq_zero.mp hl)
    exact Nat.cast_ne_zero.mpr hx
  have hemp : moves.isEmpty = false := by
    cases moves with
    | nil => exact absurd rfl h
    | cons a l => rfl
  by_cases havg0 : sumTimes moves / (moves.length : ℚ) = 0 <;>
    by_cases hrec0 : initial_time / 40 = 0 <;>
      simp [compute_stats, hemp, pydiv, hlen, havg0, hrec0]

/-- C3 counterexample: on the empty record sequence with `initial_time`
1800 the returned summary has `recommended_avg = 0`, not
`initial_time / 40 = 45` (source lines 119-128 return the all-zero dict
before `recommended_avg` is computed). -/
theorem empty_stats_recommended_counterexample :
    compute_stats (fun _ => 0) [] 1800 =
      some { count := 0, total_time := 0, avg_time := 0, std_dev := 0,
             consistency := 0, recommended_avg := 0, efficiency_ratio := 0 } ∧
    (1800 : ℚ) / 40 ≠ 0 := by
  constructor
  · rfl
  · norm_num

/-- C3 (amended): for every NON-empty `MoveRecord` sequence and every
`initial_time`, the summary returned by `compute_stats` satisfies
`recommended_avg = initial_time / 40`; on the empty sequence every field,
`recommended_avg` included, is zero. -/
theorem nonempty_stats_recommended_avg :
    ∀ (sqrt : ℚ → ℚ) (moves : List MoveRecord) (initial_time : ℚ), moves ≠ [] →
    ∃ st, compute_stats sqrt moves initial_time = some st ∧
      st.recommended_avg = initial_time / 40 := by
  intro sqrt moves initial_time h
  exact ⟨_, compute_stats_nonempty sqrt moves initial_time h, rfl⟩

/-- Witness for the amended C3 on a one-record sequence. -/
theorem nonempty_stats_recommended_avg_witness :
    ∃ st, compute_stats (fun _ => 0)
        [{ side := Side.W, move := "e4", time_used := 20 }] 1800 = some st ∧
      st.recommended_avg = 1800 / 40 :=
  nonempty_stats_recommended_avg (fun _ => 0)
    [{ side := Side.W, move := "e4", time_used := 20 }] 1800 (by simp)

/-- C4: degenerate-input safety of `compute_stats`. The empty sequence
returns the summary with every field zero; no input produces a division
fault (`compute_stats` is `some` on every input, every unguarded source
division being embedded as `pydiv`); and on a non-empty sequence
`consistency` is 0 when `avg_time = 0` and `efficiency_ratio` is 0 when
`recommended_avg = 0`. -/
theorem degenerate_stats_safety :
    (∀ (sqrt : ℚ → ℚ) (initial_time : ℚ),
      compute_stats sqrt [] initial_time =
        some { count := 0, total_time := 0, avg_time := 0, std_dev := 0,
               consistency := 0, recommended_avg := 0, efficiency_ratio := 0 }) ∧
    (∀ (sqrt : ℚ → ℚ) (moves : List MoveRecord) (initial_time : ℚ),
      (compute_stats sqrt moves initial_time).isSome) ∧
    (∀ (sqrt : ℚ → ℚ) (moves : List MoveRecord) (initial_time : ℚ) (st : Stats),
      moves ≠ [] → compute_stats sqrt moves initial_time = some st →
      (st.avg_time = 0 → st.consistency = 0) ∧
      (st.recommended_avg = 0 → st.efficiency_ratio = 0)) := by
  refine ⟨fun _ _ => rfl, ?_, ?_⟩
  · intro sqrt moves initial_time
    cases hm : moves with
    | nil => rfl
    | cons a l =>
      rw [compute_stats_nonempty sqrt (a :: l) initial_time (by simp)]
      rfl
  · intro sqrt moves initial_time st hne hcs
    rw [compute_stats_nonempty sqrt moves initial_time hne] at hcs
    simp only [Option.some.injEq] at hcs
    subst hcs
    constructor
    · intro hz; simp only at hz; simp [hz]
    · intro hz; simp only at hz; simp [hz]

/-- Witness for C4 on concrete empty and one-record inputs. -/
theorem degenerate_stats_safety_witness :
    compute_stats (fun _ => 0) [] 1800 =
      some { count := 0, total_time := 0, avg_time := 0, std_dev := 0,
             consistency := 0, recommended_avg := 0, efficiency_ratio := 0 } ∧
    (compute_stats (fun _ => 0)
      [{ side := Side.W, move := "e4", time_used := 0 }] 45).isSome ∧
    ((fun st : Stats => (st.avg_time = 0 → st.consistency = 0) ∧
        (st.recommended_avg = 0 → st.efficiency_ratio = 0))
      { count := 1, total_time := 0, avg_time := 0, std_dev := 0,
        consistency := 0, recommended_avg := 45 / 40, efficiency_ratio := 0 }) := by
  refine ⟨degenerate_stats_safety.1 (fun _ => 0) 1800,
          degenerate_stats_safety.2.1 (fun _ => 0) _ 45,
          degenerate_stats_safety.2.2 (fun _ => 0)
            [{ side := Side.W, move := "e4", time_used := 0 }] 45
            { count := 1, total_time := 0, avg_time := 0, std_dev := 0,
              consistency := 0, recommended_avg := 45 / 40, efficiency_ratio := 0 }
            (by simp) ?_⟩
  rw [compute_stats_nonempty (fun _ => 0) _ 45 (by simp)]
  norm_num [sumTimes]

lemma remarkOf_eq (t ra : ℚ) (h : ra ≠ 0) :
    remarkOf t ra = if (t - ra) / ra * 100 < -20 then "fast"
      else if 20 < (t - ra) / ra * 100 then "slow" else "optimal" := by
  simp [remarkOf, h]

lemma tableRowsAux_isSome (oa ra it : ℚ) : ∀ (moves : List MoveRecord) (i : ℕ) (cum : ℚ),
    i ≠ 0 → (tableRowsAux oa ra it i cum moves).isSome := by
  intro moves
  induction moves with
  | nil => intro i cum _; simp [tableRowsAux]
  | cons m rest ih =>
    intro i cum hi
    have hiq : ((i : ℚ)) ≠ 0 := Nat.cast_ne_zero.mpr hi
    have h2 := ih (i + 1) (cum + m.time_used) (Nat.succ_ne_zero i)
    obtain ⟨rows, hrows⟩ := Option.isSome_iff_exists.mp h2
    simp [tableRowsAux, pydiv, hiq, hrows]

lemma tableRowsAux_rows (oa ra it : ℚ) : ∀ (moves : List MoveRecord) (i : ℕ) (cum : ℚ)
    (rows : List Row), tableRowsAux oa ra it i cum moves = some rows →
    ∀ row ∈ rows, row.remark = remarkOf row.time_used ra ∧ (oa = 0 → row.delta = 0) := by
  intro moves
  induction moves with
  | nil =>
    intro i cum rows h row hmem
    simp only [tableRowsAux, Option.some.injEq] at h
    subst h
    cases hmem
  | cons m rest ih =>
    intro i cum rows h row hmem
    simp only [tableRowsAux] at h
    cases hdiv : pydiv (cum + m.time_used) ((i : ℚ)) with
    | none => rw [hdiv] at h; cases h
    | some a =>
      rw [hdiv] at h
      dsimp only at h
      cases htab : tableRowsAux oa ra it (i + 1) (cum + m.time_used) rest with
      | none => rw [htab] at h; cases h
      | some rs =>
        rw [htab] at h
        simp only [Option.some.injEq] at h
        subst h
        rcases List.mem_cons.mp hmem with rfl | hmem'
        · refine ⟨rfl, ?_⟩
          intro hoa
          simp [hoa]
        · exact ih (i + 1) (cum + m.time_used) rs htab row hmem'

/-- C10: every division inside `detailed_move_stats_table` is guarded. The
table is computed (`some`) for every move sequence, overall average,
recommended average and initial time (in particular the running-average
divisor, the 1-based index, is never 0); the percentage-deviation column is
0 on every row whenever the overall average is 0; and every remark is
"optimal" whenever the recommended average is 0. -/
theorem table_division_safety :
    (∀ (moves : List MoveRecord) (overall_avg recommended_avg initial_time : ℚ),
      (detailed_move_stats_table moves overall_avg recommended_avg initial_time).isSome) ∧
    (∀ (moves : List MoveRecord) (recommended_avg initial_time : ℚ) (rows : List Row),
      detailed_move_stats_table moves 0 recommended_avg initial_time = some rows →
      ∀ row ∈ rows, row.delta = 0) ∧
    (∀ (moves : List MoveRecord) (overall_avg initial_time : ℚ) (rows : List Row),
      detailed_move_stats_table moves overall_avg 0 initial_time = some rows →
      ∀ row ∈ rows, row.remark = "optimal") := by
  refine ⟨?_, ?_, ?_⟩
  · intro moves oa ra it
    exact tableRowsAux_isSome oa ra it moves 1 0 one_ne_zero
  · intro moves ra it rows h row hmem
    exact (tableRowsAux_rows 0 ra it moves 1 0 rows h row hmem).2 rfl
  · intro moves oa it rows h row hmem
    rw [(tableRowsAux_rows oa 0 it moves 1 0 rows h row hmem).1]
    norm_num [remarkOf]

/-- Witness for C10 on a concrete one-row table. -/
theorem table_division_safety_witness :
    (detailed_move_stats_table [{ side := Side.W, move := "e4", time_used := 10 }]
      0 0 1800).isSome ∧
    (∀ row ∈ ([{ no := 1, move := "e4", time_used := 10, cum := 10, remain := 1790,
                 avg_so_far := 10, delta := 0, remark := "optimal" }] : List Row),
      row.delta = 0) ∧
    (∀ row ∈ ([{ no := 1, move := "e4", time_used := 10, cum := 10, remain := 1790,
                 avg_so_far := 10, delta := 0, remark := "optimal" }] : List Row),
      row.remark = "optimal") := by
  have htab : detailed_move_stats_table [{ side := Side.W, move := "e4", time_used := 10 }]
      0 0 1800 = some [{ no := 1, move := "e4", time_used := 10, cum := 10, remain := 1790,
                         avg_so_far := 10, delta := 0, remark := "optimal" }] := by
    norm_num [detailed_move_stats_table, tableRowsAux, pydiv, remarkOf]
  exact ⟨table_division_safety.1 _ 0 0 1800,
         table_division_safety.2.1 _ 0 1800 _ htab,
         table_division_safety.2.2 _ 0 1800 _ htab⟩

/-- C6: the slow/fast remark boundaries of the detailed table are strict,
over exact arithmetic and for `recommended_avg > 0`: a move with
`time_used = recommended_avg * 1.2` is classified "optimal", a move with
`time_used` strictly greater is "slow", a move with
`time_used = recommended_avg * 0.8` is not "fast", and every row of
`detailed_move_stats_table` carries exactly the remark
`remarkOf time_used recommended_avg`. -/
theorem remark_boundary_strictness :
    ∀ ra : ℚ, 0 < ra →
      remarkOf (ra * (12 / 10)) ra = "optimal" ∧
      (∀ t : ℚ, ra * (12 / 10) < t → remarkOf t ra = "slow") ∧
      remarkOf (ra * (8 / 10)) ra ≠ "fast" ∧
      (∀ (moves : List MoveRecord) (overall_avg initial_time : ℚ)
         (rows : List Row) (row : Row),
        detailed_move_stats_table moves overall_avg ra initial_time = some rows →
        row ∈ rows → row.remark = remarkOf row.time_used ra) := by
  intro ra hpos
  have hne : ra ≠ 0 := ne_of_gt hpos
  refine ⟨?_, ?_, ?_, ?_⟩
  · have h20 : (ra * (12 / 10) - ra) / ra * 100 = 20 := by field_simp; ring
    rw [remarkOf_eq _ _ hne, h20]
    norm_num
  · intro t ht
    have hgt : 20 < (t - ra) / ra * 100 := by
      rw [div_mul_eq_mul_div, lt_div_iff₀ hpos]
      linarith
    rw [remarkOf_eq _ _ hne, if_neg (by linarith), if_pos hgt]
  · have h8 : (ra * (8 / 10) - ra) / ra * 100 = -20 := by field_simp; ring
    rw [remarkOf_eq _ _ hne, h8]
    norm_num
    decide
  · intro moves oa it rows row h hmem
    exact (tableRowsAux_rows oa ra it moves 1 0 rows h row hmem).1

/-- Witness for C6 at the 45-second recommended average. -/
theorem remark_boundary_strictness_witness :
    remarkOf (45 * (12 / 10)) 45 = "optimal" ∧
    (∀ t : ℚ, 45 * (12 / 10) < t → remarkOf t 45 = "slow") ∧
    remarkOf (45 * (8 / 10)) 45 ≠ "fast" ∧
    (∀ (moves : List MoveRecord) (overall_avg initial_time : ℚ)
       (rows : List Row) (row : Row),
      detailed_move_stats_table moves overall_avg 45 initial_time = some rows →
      row ∈ rows → row.remark = remarkOf row.time_used 45) :=
  remark_boundary_strictness 45 (by norm_num)

/-- C8: the clock-string parser returns
`hours*3600 + minutes*60 + seconds` for a token with 3 colon-separated
fields whose hours and minutes parse as integers and whose seconds parse as
a float, `minutes*60 + seconds` for 2 such fields, and the float value of
the whole token when the split yields a single field (no colon), fractional
seconds being preserved exactly. -/
theorem parse_time_str_formats :
    (∀ (s f0 f1 f2 : String) (hv mv : ℤ) (sv : ℚ),
      pySplit ':' s = [f0, f1, f2] → parsePyInt f0 = some hv → parsePyInt f1 = some mv →
      parsePyFloat f2 = some sv →
      parse_time_str s = some ((hv : ℚ) * 3600 + (mv : ℚ) * 60 + sv)) ∧
    (∀ (s f0 f1 : String) (mv : ℤ) (sv : ℚ),
      pySplit ':' s = [f0, f1] → parsePyInt f0 = some mv → parsePyFloat f1 = some sv →
      parse_time_str s = some ((mv : ℚ) * 60 + sv)) ∧
    (∀ (s u : String) (v : ℚ),
      pySplit ':' s = [u] → parsePyFloat s = some v → parse_time_str s = some v) := by
  refine ⟨?_, ?_, ?_⟩
  · intro s f0 f1 f2 hv mv sv hsplit h0 h1 h2
    simp only [parse_time_str, hsplit, h0, h1, h2, Option.some.injEq]
    push_cast
    ring
  · intro s f0 f1 mv sv hsplit h0 h1
    simp only [parse_time_str, hsplit, h0, h1, Option.some.injEq]
    push_cast
    ring
  · intro s u v hsplit hf
    simp only [parse_time_str, hsplit, hf]

/-- Witness for C8 on the three accepted formats. -/
theorem parse_time_str_formats_witness :
    parse_time_str "0:29:59.9" = some ((0 : ℚ) * 3600 + (29 : ℚ) * 60 + (599 / 10)) ∧
    parse_time_str "29:59.9" = some ((29 : ℚ) * 60 + (599 / 10)) ∧
    parse_time_str "125.5" = some (251 / 2) := by
  refine ⟨parse_time_str_formats.1 "0:29:59.9" "0" "29" "59.9" 0 29 (599 / 10) ?_ ?_ ?_ ?_,
          parse_time_str_formats.2.1 "29:59.9" "29" "59.9" 29 (599 / 10) ?_ ?_ ?_,
          parse_time_str_formats.2.2 "125.5" "125.5" (251 / 2) ?_ ?_⟩ <;>
    simp +decide [pySplit, pySplitChar, parsePyInt, parsePyFloat, parseMantissa,
      takeDigits, natOfDigits] <;> norm_num

/-- C7: `analyze_segments` on fewer than 2 records returns exactly the two
fixed insufficient-data strings; on a sequence of length n at least 2 it
splits at n / 2 (integer division, so for odd n the first half is the
strictly smaller half) and builds the two comments by comparing the mean
`time_used` of the early half against the `recommended_avg` baseline
thresholds and the mean of the later half against the early half mean. -/
theorem analyze_segments_spec :
    (∀ (fmt : ℚ → String) (moves : List MoveRecord) (recommended_avg : ℚ),
      moves.length < 2 →
      analyze_segments fmt moves recommended_avg =
        some ("Insufficient data for early game analysis.",
              "Insufficient data for later game analysis.")) ∧
    (∀ (fmt : ℚ → String) (moves : List MoveRecord) (recommended_avg : ℚ),
      2 ≤ moves.length →
      (moves.length % 2 = 1 →
        (moves.take (moves.length / 2)).length < (moves.drop (moves.length / 2)).length) ∧
      ∃ a1 a2 : ℚ,
        a1 = sumTimes (moves.take (moves.length / 2)) /
              ((moves.take (moves.length / 2)).length : ℚ) ∧
        a2 = sumTimes (moves.drop (moves.length / 2)) /
              ((moves.drop (moves.length / 2)).length : ℚ) ∧
        analyze_segments fmt moves recommended_avg = some
          ("Early game average: " ++ fmt a1 ++ " s/move." ++
            (if a1 < recommended_avg * (9 / 10) then
              " Moves were notably faster than recommended."
            else if recommended_avg * (11 / 10) < a1 then
              " Moves were notably slower than recommended."
            else " Early game move times were near optimal."),
           "Later game average: " ++ fmt a2 ++ " s/move." ++
            (if a2 < a1 * (9 / 10) then
              " Moves became significantly faster in the later game."
            else if a1 * (11 / 10) < a2 then
              " Moves became significantly slower in the later game."
            else " Later game move times remained consistent with the early game."))) := by
  constructor
  · intro fmt moves ra h
    simp [analyze_segments, h]
  · intro fmt moves ra h2
    have hnlt : ¬ moves.length < 2 := not_lt.mpr h2
    have htl : (moves.take (moves.length / 2)).length = moves.length / 2 := by
      rw [List.length_take]
      exact Nat.min_eq_left (Nat.div_le_self _ _)
    have hdl : (moves.drop (moves.length / 2)).length = moves.length - moves.length / 2 :=
      List.length_drop _ _
    have hmod := Nat.div_add_mod moves.length 2
    constructor
    · intro hodd
      rw [htl, hdl]
      omega
    · have ht0 : ((moves.take (moves.length / 2)).length : ℚ) ≠ 0 := by
        rw [htl]
        exact Nat.cast_ne_zero.mpr (by omega)
      have hd0 : ((moves.drop (moves.length / 2)).length : ℚ) ≠ 0 := by
        rw [hdl]
        exact Nat.cast_ne_zero.mpr (by omega)
      refine ⟨_, _, rfl, rfl, ?_⟩
      have e1 : pydiv (sumTimes (moves.take (moves.length / 2)))
          ((moves.take (moves.length / 2)).length : ℚ) =
          some (sumTimes (moves.take (moves.length / 2)) /
            ((moves.take (moves.length / 2)).length : ℚ)) := by
        rw [pydiv, if_neg ht0]
      have e2 : pydiv (sumTimes (moves.drop (moves.length / 2)))
          ((moves.drop (moves.length / 2)).length : ℚ) =
          some (sumTimes (moves.drop (moves.length / 2)) /
            ((moves.drop (moves.length / 2)).length : ℚ)) := by
        rw [pydiv, if_neg hd0]
      simp only [analyze_segments, if_neg hnlt, e1, e2]

/-- Witness for C7 on a one-record sequence. -/
theorem analyze_segments_spec_witness :
    analyze_segments (fun _ => "x")
        [{ side := Side.W, move := "e4", time_used := 10 }] 45 =
      some ("Insufficient data for early game analysis.",
            "Insufficient data for later game analysis.") :=
  analyze_segments_spec.1 (fun _ => "x")
    [{ side := Side.W, move := "e4", time_used := 10 }] 45 (by simp)

lemma combineMoves_join : ∀ (mn : ℕ) (recs : List MoveRecord),
    ((combineMoves mn recs).map lineRecords).flatten = recs := by
  intro mn recs
  induction mn, recs using combineMoves.induct <;>
    simp_all [combineMoves, lineRecords]

lemma combineMoves_numbers : ∀ (mn : ℕ) (recs : List MoveRecord),
    (combineMoves mn recs).map OutLine.number =
      List.range' mn (combineMoves mn recs).length := by
  intro mn recs
  induction mn, recs using combineMoves.induct <;>
    simp_all [combineMoves, List.range']

lemma combineMoves_lines_nonempty : ∀ (mn : ℕ) (recs : List MoveRecord),
    ∀ l ∈ combineMoves mn recs, lineRecords l ≠ [] := by
  intro mn recs
  induction mn, recs using combineMoves.induct <;>
    simp_all [combineMoves, lineRecords]

/-- C9: the combined move-list construction terminates and is a partition
of its input: concatenating the records of the produced lines gives back
exactly the input record list (each record consumed exactly once, in order),
the move numbers are consecutive starting at 1, and every produced line
holds at least one record (every iteration of the source loop advances the
index), a lone White-only or Black-only record getting a line of its own. -/
theorem combined_move_list_spec :
    ∀ recs : List MoveRecord,
      ((combineMoves 1 recs).map lineRecords).flatten = recs ∧
      (combineMoves 1 recs).map OutLine.number =
        List.range' 1 (combineMoves 1 recs).length ∧
      ∀ l ∈ combineMoves 1 recs, lineRecords l ≠ [] :=
  fun recs => ⟨combineMoves_join 1 recs, combineMoves_numbers 1 recs,
               combineMoves_lines_nonempty 1 recs⟩

/-- Witness for C9 on a list with a leading Black record and two
consecutive White records. -/
theorem combined_move_list_spec_witness :
    ((combineMoves 1 [{ side := Side.B, move := "e5", time_used := 1 },
        { side := Side.W, move := "d4", time_used := 2 },
        { side := Side.W, move := "c4", time_used := 3 },
        { side := Side.B, move := "e6", time_used := 4 }]).map lineRecords).flatten =
      [{ side := Side.B, move := "e5", time_used := 1 },
       { side := Side.W, move := "d4", time_used := 2 },
       { side := Side.W, move := "c4", time_used := 3 },
       { side := Side.B, move := "e6", time_used := 4 }] ∧
    (combineMoves 1 [{ side := Side.B, move := "e5", time_used := 1 },
        { side := Side.W, move := "d4", time_used := 2 },
        { side := Side.W, move := "c4", time_used := 3 },
        { side := Side.B, move := "e6", time_used := 4 }]).map OutLine.number =
      List.range' 1 (combineMoves 1 [{ side := Side.B, move := "e5", time_used := 1 },
        { side := Side.W, move := "d4", time_used := 2 },
        { side := Side.W, move := "c4", time_used := 3 },
        { side := Side.B, move := "e6", time_used := 4 }]).length ∧
    ∀ l ∈ combineMoves 1 [{ side := Side.B, move := "e5", time_used := 1 },
        { side := Side.W, move := "d4", time_used := 2 },
        { side := Side.W, move := "c4", time_used := 3 },
        { side := Side.B, move := "e6", time_used := 4 }], lineRecords l ≠ [] :=
  combined_move_list_spec _
